import Mathlib

/-!
# Verification development for the `chembl_ident` package

Shallow embedding of `src/chembl_ident/chembl_ident.py`.

Correspondence of names (code / spec):
* `chembl_id`   / accession identifier  : `Option String`
* `drugbase_id` / secondary identifier  : `Option Int`
* `molregno`    / registry number       : `Option Int`

Python dictionaries are modelled as association lists without duplicate
keys (`dinsert` removes any previous binding before prepending the new
one).  Python sets are modelled as duplicate-free lists built with
`sinsert` / `supdate`; of a set the source observes only membership,
iteration (in an unspecified order) and extensional equality, so a
deterministic insertion-ordered list is a faithful model.  Absent
values (`None`) are `Option.none`, and a raised exception is an
`Option.none` result of the modelled operation.  Python truthiness of
the field values is modelled by `intTruthy` / `strTruthy` (`None`, `0`
and the empty string are falsy).
-/

/-! ## Association-list dictionaries and list-modelled sets -/

def dlookup [DecidableEq κ] : List (κ × ν) → κ → Option ν
  | [], _ => none
  | p :: t, k => if p.1 = k then some p.2 else dlookup t k

def eraseKey [DecidableEq κ] (k : κ) : List (κ × ν) → List (κ × ν)
  | [] => []
  | p :: t => if p.1 = k then eraseKey k t else p :: eraseKey k t

/-- Python dictionary assignment `d[k] = v`: any previous binding of `k`
is replaced. -/
def dinsert [DecidableEq κ] (k : κ) (v : ν) (l : List (κ × ν)) : List (κ × ν) :=
  (k, v) :: eraseKey k l

/-- Python membership test `k in d`. -/
def containsKey [DecidableEq κ] (l : List (κ × ν)) (k : κ) : Bool :=
  (dlookup l k).isSome

/-- The keys of a dictionary, in order. -/
def dkeys (l : List (κ × ν)) : List κ :=
  l.map Prod.fst

/-- The dictionary has no duplicate keys (holds for every dictionary
built with `dinsert` from `[]`). -/
def DKeysNodup (l : List (κ × ν)) : Prop :=
  (dkeys l).Nodup

/-- Python lookup through a possibly-`None` key: `None` is never a key
of the (typed-key) dictionaries of this program, so `x in d` is false
for `x = None`. -/
def olookup [DecidableEq κ] (l : List (κ × ν)) : Option κ → Option ν
  | none => none
  | some k => dlookup l k

/-- Python `set.add`: no effect when the element is already a member. -/
def sinsert [DecidableEq β] (e : β) (l : List β) : List β :=
  if e ∈ l then l else l ++ [e]

/-- Python `set.update`: add every element of `es`. -/
def supdate [DecidableEq β] (l es : List β) : List β :=
  es.foldl (fun acc e => sinsert e acc) l

/-- A Python set built by iterating a sequence (a set display or set
comprehension). -/
def pysetOf [DecidableEq β] (l : List β) : List β :=
  supdate [] l

/-- `defaultdict(set)` update `d[k].add(e)`: a missing key gets a fresh
empty set first. -/
def dAddToSet [DecidableEq κ] [DecidableEq β] (l : List (κ × List β)) (k : κ) (e : β) :
    List (κ × List β) :=
  match dlookup l k with
  | some s => dinsert k (sinsert e s) l
  | none => dinsert k (sinsert e []) l

/-- `defaultdict(set)` update `d[k].update(es)`. -/
def dUnionToSet [DecidableEq κ] [DecidableEq β] (l : List (κ × List β)) (k : κ)
    (es : List β) : List (κ × List β) :=
  match dlookup l k with
  | some s => dinsert k (supdate s es) l
  | none => dinsert k (supdate [] es) l

/-- `e` is a member of the set stored under key `k` (Python:
`k in d and e in d[k]`). -/
def memAt [DecidableEq κ] [DecidableEq β] (m : List (κ × List β)) (k : κ) (e : β) : Prop :=
  ∃ s, dlookup m k = some s ∧ e ∈ s

/-! ## `ChemblIdent` (spec: Identifier)

Source: `class ChemblIdent`, `chembl_ident.py` lines 7-51.  Field order
follows `__tuple__` / the positional parameters of `__init__`:
`(chembl_id, drugbase_id, molregno)`. -/

structure ChemblIdent where
  chembl_id : Option String
  drugbase_id : Option Int
  molregno : Option Int
deriving DecidableEq

/-- Python truthiness of an optional integer (`None` and `0` are falsy). -/
def intTruthy : Option Int → Bool
  | none => false
  | some n => n != 0

/-- Python truthiness of an optional string (`None` and `""` are falsy). -/
def strTruthy : Option String → Bool
  | none => false
  | some s => s != ""

/-- The decimal value of a digit character. -/
def digitVal? (c : Char) : Option Nat :=
  if c.toNat ≥ 48 ∧ c.toNat ≤ 57 then some (c.toNat - 48) else none

/-- Python `int` on a character list: an optional minus sign followed
by at least one decimal digit (the model of `int`; Python additionally
strips whitespace and accepts `+` and `_` separators, which never occur
in accession ids).  `none` models the raised `ValueError`. -/
def pyIntOfChars : List Char → Option Int
  | [] => none
  | c :: rest =>
    if c = '-' then
      match digitsToNat? rest with
      | some n => some (-(n : Int))
      | none => none
    else
      match digitsToNat? (c :: rest) with
      | some n => some ((n : Int))
      | none => none
where
  digitsToNat? : List Char → Option Nat
  | [] => none
  | l => l.foldl (fun acc c => match acc, digitVal? c with
      | some n, some d => some (10 * n + d)
      | _, _ => none) (some 0)

/-- The integer key a `chembl_id` contributes to the ordering tuple of
`ChemblIdent.__lt__`: `-1` for `None`, otherwise `int(chembl_id[6:])`
(chop off the fixed `"CHEMBL"` prefix -- Python slicing is by
characters, hence `List.drop 6` on the character list -- and parse the
rest as a Python integer). -/
def chemblIdKey : Option String → Option Int
  | none => some (-1)
  | some s => pyIntOfChars (s.data.drop 6)

/-- The comparison tuple built by the inner `get_tuple` of
`ChemblIdent.__lt__` (lines 30-46); `none` models a raised
`ValueError`. -/
def get_tuple (o : ChemblIdent) : Option (Int × Int × Int) :=
  match chemblIdKey o.chembl_id with
  | none => none
  | some c => some (c, o.drugbase_id.getD (-1), o.molregno.getD (-1))

/-- Lexicographic comparison of two integer triples, as Python compares
tuples. -/
def tripleLt : Int × Int × Int → Int × Int × Int → Bool
  | (a1, a2, a3), (b1, b2, b3) =>
    a1 < b1 || (a1 = b1 && (a2 < b2 || (a2 = b2 && a3 < b3)))

/-- `ChemblIdent.__lt__` (`none` models a raised `ValueError` while
parsing an accession id). -/
def identLt (a b : ChemblIdent) : Option Bool :=
  match get_tuple a, get_tuple b with
  | some ta, some tb => some (tripleLt ta tb)
  | _, _ => none

/-- `ChemblIdent.__eq__`: structural equality of the field triples. -/
def identEq (a b : ChemblIdent) : Bool :=
  (a.chembl_id, a.drugbase_id, a.molregno) = (b.chembl_id, b.drugbase_id, b.molregno)

/-! ## `ChemblIndexes` (spec: IndexStore): the ten maps

The structure holds the maps of a successfully built or loaded store;
the partially-initialised state that exists during / after a failed
`load_indexes` is modelled separately by `LoadedState` below.

The hierarchy maps are keyed by `Option ChemblIdent` because
`gen_indexes` inserts whatever `get_chembl_ident` returns as a
dictionary key, and that may be Python `None` when a hierarchy row
fails to resolve. -/

structure ChemblIndexes where
  drugbase_id2mrn : List (Int × Int)
  mrn2drugbase_id : List (Int × Int)
  chembl_id2mrn : List (String × Int)
  mrn2chembl_id : List (Int × String)
  mrn2phase : List (Int × Option Int)
  drugbase_id2phase : List (Int × Option Int)
  source_map : List (Int × Option String)
  drugbase_id2source_id : List (Int × List Int)
  compound_parents : List (Option ChemblIdent × List (Option ChemblIdent))
  compound_children : List (Option ChemblIdent × List (Option ChemblIdent))

/-! ## Query methods (source lines 232-288) -/

/-- `ChemblIndexes.get_molregno` (lines 246-250). -/
def get_molregno (s : ChemblIndexes) (drugbase_id : Option Int)
    (chembl_id : Option String) : Option Int :=
  match olookup s.drugbase_id2mrn drugbase_id with
  | some m => some m
  | none => olookup s.chembl_id2mrn chembl_id

/-- `ChemblIndexes.get_drugbase_id` (lines 252-254). -/
def get_drugbase_id (s : ChemblIndexes) (molregno : Option Int) : Option Int :=
  olookup s.mrn2drugbase_id molregno

/-- `ChemblIndexes.get_chembl_id` (lines 256-258). -/
def get_chembl_id (s : ChemblIndexes) (molregno : Option Int) : Option String :=
  olookup s.mrn2chembl_id molregno

/-- The local `molregno` of `get_chembl_ident` after lines 280-281: the
argument, or the value derived through `get_molregno` when the argument
is `None`. -/
def resolvedMolregno (s : ChemblIndexes) (molregno drugbase_id : Option Int)
    (chembl_id : Option String) : Option Int :=
  match molregno with
  | none => get_molregno s drugbase_id chembl_id
  | some m => some m

/-- The local `chembl_id` of `get_chembl_ident` after lines 282-283 (it
is derived from the already-updated local `molregno`). -/
def resolvedChemblId (s : ChemblIndexes) (molregno drugbase_id : Option Int)
    (chembl_id : Option String) : Option String :=
  match chembl_id with
  | none => get_chembl_id s (resolvedMolregno s molregno drugbase_id chembl_id)
  | some c => some c

/-- The local `drugbase_id` of `get_chembl_ident` after lines 284-285. -/
def resolvedDrugbaseId (s : ChemblIndexes) (molregno drugbase_id : Option Int)
    (chembl_id : Option String) : Option Int :=
  match drugbase_id with
  | none => get_drugbase_id s (resolvedMolregno s molregno drugbase_id chembl_id)
  | some d => some d

/-- `ChemblIndexes.get_chembl_ident` (lines 279-288), the resolver.
Note: the final guard is Python `any([molregno, drugbase_id,
chembl_id])`, which tests truthiness, not `is not None`. -/
def get_chembl_ident (s : ChemblIndexes) (molregno drugbase_id : Option Int)
    (chembl_id : Option String) : Option ChemblIdent :=
  if intTruthy (resolvedMolregno s molregno drugbase_id chembl_id) ||
     intTruthy (resolvedDrugbaseId s molregno drugbase_id chembl_id) ||
     strTruthy (resolvedChemblId s molregno drugbase_id chembl_id) then
    some ⟨resolvedChemblId s molregno drugbase_id chembl_id,
          resolvedDrugbaseId s molregno drugbase_id chembl_id,
          resolvedMolregno s molregno drugbase_id chembl_id⟩
  else
    none

/-- `ChemblIndexes.get_parents` (lines 232-237).  A `ChemblIdent`
instance is always truthy in Python, so `if obj:` is an `is not None`
test on the resolver's result. -/
def get_parents (s : ChemblIndexes) (obj : Option ChemblIdent)
    (drugbase_id molregno : Option Int) (chembl_id : Option String) :
    Option (List (Option ChemblIdent)) :=
  let obj := match obj with
    | none => get_chembl_ident s molregno drugbase_id chembl_id
    | some o => some o
  match obj with
  | some o => dlookup s.compound_parents (some o)
  | none => none

/-- `ChemblIndexes.get_children` (lines 239-244). -/
def get_children (s : ChemblIndexes) (obj : Option ChemblIdent)
    (drugbase_id molregno : Option Int) (chembl_id : Option String) :
    Option (List (Option ChemblIdent)) :=
  let obj := match obj with
    | none => get_chembl_ident s molregno drugbase_id chembl_id
    | some o => some o
  match obj with
  | some o => dlookup s.compound_children (some o)
  | none => none

/-- `ChemblIndexes.get_sources` (lines 260-264).  The set comprehension
`{self.source_map[x] for x in self.drugbase_id2source_id[drugbase_id]}`
indexes `source_map` without a membership guard, so it raises `KeyError`
when a recorded source id is not a key of `source_map`; the result
`none` models that exception. -/
def get_sources (s : ChemblIndexes) (drugbase_id : Int) :
    Option (List (Option String)) :=
  match dlookup s.drugbase_id2source_id drugbase_id with
  | some ids =>
      if ids.all (fun x => containsKey s.source_map x) then
        some (pysetOf (ids.map fun x => (dlookup s.source_map x).join))
      else
        none
  | none => some []

/-- `ChemblIndexes.get_phase` (lines 266-277).  The stored phase values
are themselves optional (`gen_indexes` only skips rows with a `None`
key, not rows with a `None` phase), hence the `Option.join`. -/
def get_phase (s : ChemblIndexes) (obj : Option ChemblIdent)
    (drugbase_id molregno : Option Int) (chembl_id : Option String) : Option Int :=
  let obj := match obj with
    | none => get_chembl_ident s molregno drugbase_id chembl_id
    | some o => some o
  match obj with
  | none => none
  | some o =>
    let phase1 : Option Int := (olookup s.mrn2phase o.molregno).join
    let phase2 : Option Int := (olookup s.drugbase_id2phase o.drugbase_id).join
    let max_phase := max (phase1.getD (-5)) (phase2.getD (-5))
    if max_phase > -5 then some max_phase else none

/-! ## `ChemblIndexes.gen_indexes` (lines 75-180)

The external database is out of scope (spec §6): each SQL query is
modelled as the list of rows it yields, in order.  Row fields that the
database may report as NULL are `Option`s; the primary-key columns of
the two source tables are modelled as non-null integers. -/

structure Rows where
  drugbase_rows : List (Option Int × Option Int)
  chembl_rows : List (Option String × Option Int)
  mrn_phase_rows : List (Option Int × Option Int)
  db_phase_rows : List (Option Int × Option Int)
  source_rows : List (Int × Option String)
  source_map_rows : List (Int × Int)
  chembl_hier_rows : List (Option Int × Option Int)
  db_hier_rows : List (Option Int × Option Int × Option Int)

/-- One iteration of the paired-map loops (lines 87-91 and 101-105):
rows with either field `None` are skipped, otherwise both directions
are assigned. -/
def pairStep [DecidableEq α] [DecidableEq β] (acc : List (α × β) × List (β × α))
    (r : Option α × Option β) : List (α × β) × List (β × α) :=
  match r with
  | (some a, some b) => (dinsert a b acc.1, dinsert b a acc.2)
  | _ => acc

/-- A paired-map loop in full. -/
def buildPair [DecidableEq α] [DecidableEq β] (rows : List (Option α × Option β)) :
    List (α × β) × List (β × α) :=
  rows.foldl pairStep ([], [])

/-- The rows of a paired-map loop that are not skipped. -/
def goodRows (rows : List (Option α × Option β)) : List (α × β) :=
  rows.filterMap fun r =>
    match r with
    | (some a, some b) => some (a, b)
    | _ => none

/-- One iteration of a phase-map loop (lines 116-119 / 128-131): only a
`None` key is skipped; the phase value is stored as-is (it may be
`None`). -/
def phaseStep [DecidableEq α] (acc : List (α × Option Int))
    (r : Option α × Option Int) : List (α × Option Int) :=
  match r.1 with
  | some k => dinsert k r.2 acc
  | none => acc

/-- The children-map derivation (lines 172-175): one pass over all
`(child, parent-set)` entries of `compound_parents`, adding `child` to
`children[parent]` for every parent in the set. -/
def invertHier [DecidableEq α] (l : List (α × List α)) : List (α × List α) :=
  l.foldl (fun acc e => e.2.foldl (fun acc2 v => dAddToSet acc2 v e.1) acc) []

/-- The store state after the six scalar-map loops of `gen_indexes`
(lines 85-156); the hierarchy loops resolve raw ids against exactly
these maps. -/
def genBase (r : Rows) : ChemblIndexes :=
  { drugbase_id2mrn := (buildPair r.drugbase_rows).1
    mrn2drugbase_id := (buildPair r.drugbase_rows).2
    chembl_id2mrn := (buildPair r.chembl_rows).1
    mrn2chembl_id := (buildPair r.chembl_rows).2
    mrn2phase := r.mrn_phase_rows.foldl phaseStep []
    drugbase_id2phase := r.db_phase_rows.foldl phaseStep []
    source_map := r.source_rows.foldl (fun acc q => dinsert q.1 q.2 acc) []
    drugbase_id2source_id :=
      r.source_map_rows.foldl (fun acc q => dAddToSet acc q.1 q.2) []
    compound_parents := []
    compound_children := [] }

/-- The `compound_parents` map after the two hierarchy loops (lines
160-170): the first contributes one parent edge per row, the second a
"parent" and an "active-form" edge per row.  Both loops use
`get_chembl_ident` on the raw id -- Python `None` when resolution
fails -- as dictionary key / set member. -/
def genParents (r : Rows) : List (Option ChemblIdent × List (Option ChemblIdent)) :=
  r.db_hier_rows.foldl
    (fun acc q => dUnionToSet acc (get_chembl_ident (genBase r) none q.1 none)
      (pysetOf [get_chembl_ident (genBase r) none q.2.1 none,
                get_chembl_ident (genBase r) none q.2.2 none]))
    (r.chembl_hier_rows.foldl
      (fun acc q => dAddToSet acc (get_chembl_ident (genBase r) q.1 none none)
        (get_chembl_ident (genBase r) q.2 none none)) [])

/-- `ChemblIndexes.gen_indexes` (lines 75-180). -/
def gen_indexes (r : Rows) : ChemblIndexes :=
  { genBase r with
    compound_parents := genParents r
    compound_children := invertHier (genParents r) }

/-! ## Persistence (lines 182-230)

The JSON / pickle byte encodings belong to the out-of-scope persistence
layer (spec §1, §6: on-disk formats are covered only through "the
logical mapping they must preserve"), so a written file is modelled as
the typed content handed to `json.dump` / `pickle.dump`: scalar-keyed
maps as their entry lists (JSON's stringification of integer keys and
the inverse `int(k)` comprehensions applied by `load_indexes` cancel
and are collapsed), hierarchy maps as lists of `(identifier-triple, set
of triples)`, and the source-id sets as lists.  A file that is missing
or unreadable is a `none` blob. -/

abbrev IdentTuple := Option String × Option Int × Option Int

/-- `ChemblIdent.__tuple__` (lines 50-51). -/
def identTuple (o : ChemblIdent) : IdentTuple :=
  (o.chembl_id, o.drugbase_id, o.molregno)

/-- `ChemblIdent(*t)` (lines 220/222): rebuild an identifier from a
stored triple (positional order `chembl_id, drugbase_id, molregno`). -/
def identOfTuple (t : IdentTuple) : ChemblIdent :=
  ⟨t.1, t.2.1, t.2.2⟩

/-- `k.__tuple__()` on a hierarchy-map key: the key may be Python
`None`, in which case `save_indexes` raises `AttributeError` (`none`). -/
def keyTuple : Option ChemblIdent → Option IdentTuple
  | some o => some (identTuple o)
  | none => none

/-- `{v.__tuple__() for v in vs}`: raises if any member is `None`. -/
def setTuples (vs : List (Option ChemblIdent)) : Option (List IdentTuple) :=
  if vs.all (fun v => v.isSome) then
    some (pysetOf (vs.map fun v => identTuple (v.getD ⟨none, none, none⟩)))
  else
    none

/-- The dict comprehensions of lines 195/197: every hierarchy key and
every set member is turned into its tuple; `none` models the
`AttributeError` raised on a Python `None` key or member. -/
def saveHier : List (Option ChemblIdent × List (Option ChemblIdent)) →
    Option (List (IdentTuple × List IdentTuple))
  | [] => some []
  | e :: t =>
    match keyTuple e.1, setTuples e.2, saveHier t with
    | some tk, some ts, some tt => some ((tk, ts) :: tt)
    | _, _, _ => none

/-- The inverse comprehensions of lines 220/222. -/
def loadHier (l : List (IdentTuple × List IdentTuple)) :
    List (Option ChemblIdent × List (Option ChemblIdent)) :=
  l.map fun e =>
    (some (identOfTuple e.1), pysetOf (e.2.map fun t => some (identOfTuple t)))

/-- The ten files of the persistence directory, in the order
`load_indexes` reads them; `none` is a missing/unreadable file. -/
structure SavedBlobs where
  drugbase_id2mrn_f : Option (List (Int × Int))
  mrn2drugbase_id_f : Option (List (Int × Int))
  chembl_id2mrn_f : Option (List (String × Int))
  mrn2chembl_id_f : Option (List (Int × String))
  compound_parents_f : Option (List (IdentTuple × List IdentTuple))
  compound_children_f : Option (List (IdentTuple × List IdentTuple))
  source_map_f : Option (List (Int × Option String))
  drugbase_id2source_id_f : Option (List (Int × List Int))
  mrn2phase_f : Option (List (Int × Option Int))
  drugbase_id2phase_f : Option (List (Int × Option Int))

/-- `ChemblIndexes.save_indexes` (lines 182-205): `none` models the
`AttributeError` raised by `k.__tuple__()` on a Python `None` hierarchy
key or member; otherwise all ten files are written (line 201 stores
each source-id set as a list, the identity on the list model). -/
def save_indexes (s : ChemblIndexes) : Option SavedBlobs :=
  match saveHier s.compound_parents, saveHier s.compound_children with
  | some ps, some cs =>
    some { drugbase_id2mrn_f := some s.drugbase_id2mrn
           mrn2drugbase_id_f := some s.mrn2drugbase_id
           chembl_id2mrn_f := some s.chembl_id2mrn
           mrn2chembl_id_f := some s.mrn2chembl_id
           compound_parents_f := some ps
           compound_children_f := some cs
           source_map_f := some s.source_map
           drugbase_id2source_id_f := some s.drugbase_id2source_id
           mrn2phase_f := some s.mrn2phase
           drugbase_id2phase_f := some s.drugbase_id2phase }
  | _, _ => none

/-- The map attributes of a `ChemblIndexes` object around
`load_indexes`: `none` is an attribute that is still unset or was reset
to Python `None`. -/
structure LoadedState where
  drugbase_id2mrn : Option (List (Int × Int))
  mrn2drugbase_id : Option (List (Int × Int))
  chembl_id2mrn : Option (List (String × Int))
  mrn2chembl_id : Option (List (Int × String))
  compound_parents : Option (List (Option ChemblIdent × List (Option ChemblIdent)))
  compound_children : Option (List (Option ChemblIdent × List (Option ChemblIdent)))
  source_map : Option (List (Int × Option String))
  drugbase_id2source_id : Option (List (Int × List Int))
  mrn2phase : Option (List (Int × Option Int))
  drugbase_id2phase : Option (List (Int × Option Int))
deriving DecidableEq

/-- The freshly constructed object, before `load_indexes` has assigned
any map attribute. -/
def initialState : LoadedState :=
  ⟨none, none, none, none, none, none, none, none, none, none⟩

/-- `ChemblIndexes.load_indexes` (lines 207-230): reads the ten files
in source order, assigning each attribute in turn; a missing/unreadable
file raises at that point (second component `false`), leaving the
attributes assigned so far in place.  Line 226 turns each stored
source-id list back into a set. -/
def load_indexes (b : SavedBlobs) (st0 : LoadedState) : LoadedState × Bool :=
  match b.drugbase_id2mrn_f with
  | none => (st0, false)
  | some v1 =>
    let st1 := { st0 with drugbase_id2mrn := some v1 }
    match b.mrn2drugbase_id_f with
    | none => (st1, false)
    | some v2 =>
      let st2 := { st1 with mrn2drugbase_id := some v2 }
      match b.chembl_id2mrn_f with
      | none => (st2, false)
      | some v3 =>
        let st3 := { st2 with chembl_id2mrn := some v3 }
        match b.mrn2chembl_id_f with
        | none => (st3, false)
        | some v4 =>
          let st4 := { st3 with mrn2chembl_id := some v4 }
          match b.compound_parents_f with
          | none => (st4, false)
          | some v5 =>
            let st5 := { st4 with compound_parents := some (loadHier v5) }
            match b.compound_children_f with
            | none => (st5, false)
            | some v6 =>
              let st6 := { st5 with compound_children := some (loadHier v6) }
              match b.source_map_f with
              | none => (st6, false)
              | some v7 =>
                let st7 := { st6 with source_map := some v7 }
                match b.drugbase_id2source_id_f with
                | none => (st7, false)
                | some v8 =>
                  let newSrc := v8.map fun e => (e.1, pysetOf e.2)
                  let st8 := { st7 with drugbase_id2source_id := some newSrc }
                  match b.mrn2phase_f with
                  | none => (st8, false)
                  | some v9 =>
                    let st9 := { st8 with mrn2phase := some v9 }
                    match b.drugbase_id2phase_f with
                    | none => (st9, false)
                    | some v10 =>
                      ({ st9 with drugbase_id2phase := some v10 }, true)

/-- `ChemblIndexes.__init__` (lines 54-67): try to load; on any failure
set the four one-to-one maps and the two hierarchy maps to Python
`None`.  The phase and source maps are not mentioned in the handler. -/
def chembl_indexes_init (b : SavedBlobs) : LoadedState :=
  let r := load_indexes b initialState
  if r.2 then r.1
  else { r.1 with
         drugbase_id2mrn := none
         mrn2drugbase_id := none
         chembl_id2mrn := none
         mrn2chembl_id := none
         compound_parents := none
         compound_children := none }

/-- The retained rows of a paired-map loop describe a partial
bijection: two retained rows agree on the left field iff they agree on
the right field. -/
def OneToOne (l : List (α × β)) : Prop :=
  ∀ p ∈ l, ∀ q ∈ l, p.1 = q.1 ↔ p.2 = q.2

instance oneToOneDecidable [DecidableEq α] [DecidableEq β] (l : List (α × β)) :
    Decidable (OneToOne l) := by
  unfold OneToOne
  exact @List.decidableBAll _ (fun p => ∀ q ∈ l, p.1 = q.1 ↔ p.2 = q.2)
    (fun p => List.decidableBAll _ l) l

/-! ## Concrete fixtures used by counterexamples and witnesses -/

/-- A store with all ten maps empty. -/
def emptyStore : ChemblIndexes :=
  ⟨[], [], [], [], [], [], [], [], [], []⟩

/-- A store whose only secondary id `1` records source id `5`, which is
absent from the (empty) source-name map. -/
def sourcesStore : ChemblIndexes :=
  { emptyStore with drugbase_id2source_id := [(1, [5])] }

/-- A store whose registry-phase map binds key `100` to a null phase. -/
def nullPhaseStore : ChemblIndexes :=
  { emptyStore with mrn2phase := [(100, none)] }

/-- A store mapping the falsy secondary id `0` to the falsy registry
number `0`, and the falsy accession id `""` to registry number `5`. -/
def falsyStore : ChemblIndexes :=
  { emptyStore with drugbase_id2mrn := [(0, 0)], chembl_id2mrn := [("", 5)] }

/-- A store for the confirmed resolution claims: secondary ids `1`, `2`
map to registry numbers `100`, `200`; accession ids `CHEMBL1`,
`CHEMBL2` map to `100`, `200`. -/
def resolveStore : ChemblIndexes :=
  { emptyStore with
    drugbase_id2mrn := [(1, 100), (2, 200)]
    mrn2drugbase_id := [(100, 1), (200, 2)]
    chembl_id2mrn := [("CHEMBL1", 100), ("CHEMBL2", 200)]
    mrn2chembl_id := [(100, "CHEMBL1"), (200, "CHEMBL2")] }

/-- A store in which secondary id `1` and accession id `"CHEMBL9"` map
to different registry numbers (`100` vs `900`). -/
def conflictStore : ChemblIndexes :=
  { emptyStore with
    drugbase_id2mrn := [(1, 100)]
    chembl_id2mrn := [("CHEMBL9", 900)] }

/-- Row sources whose secondary catalog maps both secondary ids `1` and
`2` to the same registry number `100`: the later row overwrites the
registry-to-secondary direction. -/
def dupRows : Rows :=
  ⟨[(some 1, some 100), (some 2, some 100)], [], [], [], [], [], [], []⟩

/-- Well-behaved row sources (a one-to-one secondary catalog and a
one-to-one primary catalog, one hierarchy edge). -/
def okRows : Rows :=
  ⟨[(some 1, some 100), (some 2, some 200)],
   [(some "CHEMBL1", some 100), (some "CHEMBL2", some 200)],
   [], [], [], [], [(some 200, some 100)], []⟩

/-- A store with one hierarchy edge in each direction and one recorded
source-id set, used to exercise the save/load round trip. -/
def hierStore : ChemblIndexes :=
  { emptyStore with
    compound_parents :=
      [(some ⟨some "CHEMBL2", some 2, some 200⟩,
        [some ⟨some "CHEMBL1", some 1, some 100⟩])]
    compound_children :=
      [(some ⟨some "CHEMBL1", some 1, some 100⟩,
        [some ⟨some "CHEMBL2", some 2, some 200⟩])]
    drugbase_id2source_id := [(1, [5, 6])]
    source_map := [(5, some "src5"), (6, some "src6")] }

/-- A blob set whose first eight files are present (and empty) but whose
two phase files are missing: `load_indexes` fails only after the source
maps have been assigned. -/
def lateFailBlobs : SavedBlobs :=
  ⟨some [], some [], some [], some [], some [], some [], some [], some [],
   none, none⟩

/-- A fully present, empty blob set. -/
def okBlobs : SavedBlobs :=
  ⟨some [], some [], some [], some [], some [], some [], some [], some [],
   some [], some []⟩

/-! ## Lemmas about the dictionary model -/

theorem dkeys_nil : dkeys ([] : List (κ × ν)) = [] := rfl

theorem dkeys_cons (p : κ × ν) (t : List (κ × ν)) :
    dkeys (p :: t) = p.1 :: dkeys t := rfl

theorem dlookup_eraseKey_ne [DecidableEq κ] (k a : κ) (l : List (κ × ν)) (h : a ≠ k) :
    dlookup (eraseKey k l) a = dlookup l a := by
  induction l with
  | nil => rfl
  | cons p t ih =>
    by_cases hp : p.1 = k
    · have hpa : p.1 ≠ a := fun he => h (he ▸ hp)
      simp only [eraseKey, if_pos hp, ih, dlookup, if_neg hpa]
    · simp only [eraseKey, if_neg hp, dlookup, ih]

theorem dlookup_dinsert [DecidableEq κ] (k a : κ) (v : ν) (l : List (κ × ν)) :
    dlookup (dinsert k v l) a = if a = k then some v else dlookup l a := by
  by_cases hak : a = k
  · subst hak
    simp [dinsert, dlookup]
  · simp [dinsert, dlookup, Ne.symm hak, hak, dlookup_eraseKey_ne k a l hak]

theorem dlookup_mem [DecidableEq κ] {l : List (κ × ν)} {a : κ} {b : ν} :
    dlookup l a = some b → (a, b) ∈ l := by
  induction l with
  | nil => intro h; simp [dlookup] at h
  | cons p t ih =>
    intro h
    by_cases hp : p.1 = a
    · rw [dlookup, if_pos hp] at h
      have hb : p.2 = b := Option.some.inj h
      have hpab : (a, b) = p := by rw [← hp, ← hb]
      exact List.mem_cons.mpr (Or.inl hpab)
    · rw [dlookup, if_neg hp] at h
      exact List.mem_cons_of_mem p (ih h)

theorem mem_dkeys_eraseKey [DecidableEq κ] {k a : κ} {l : List (κ × ν)} :
    a ∈ dkeys (eraseKey k l) → a ∈ dkeys l := by
  induction l with
  | nil => intro h; simp [eraseKey, dkeys] at h
  | cons p t ih =>
    intro h
    by_cases hp : p.1 = k
    · simp only [eraseKey, if_pos hp] at h
      exact List.mem_cons_of_mem _ (ih h)
    · simp only [eraseKey, if_neg hp, dkeys_cons] at h
      rcases List.mem_cons.mp h with h1 | h2
      · exact List.mem_cons.mpr (Or.inl h1)
      · exact List.mem_cons_of_mem _ (ih h2)

theorem not_mem_dkeys_eraseKey_self [DecidableEq κ] (k : κ) (l : List (κ × ν)) :
    k ∉ dkeys (eraseKey k l) := by
  induction l with
  | nil => simp [eraseKey, dkeys]
  | cons p t ih =>
    by_cases hp : p.1 = k
    · simpa [eraseKey, if_pos hp] using ih
    · simp only [eraseKey, if_neg hp, dkeys_cons, List.mem_cons, not_or]
      exact ⟨fun he => hp he.symm, ih⟩

theorem nodup_eraseKey [DecidableEq κ] (k : κ) {l : List (κ × ν)} :
    DKeysNodup l → DKeysNodup (eraseKey k l) := by
  induction l with
  | nil => intro h; simpa [eraseKey] using h
  | cons p t ih =>
    intro h
    simp only [DKeysNodup, dkeys_cons, List.nodup_cons] at h
    obtain ⟨h1, h2⟩ := h
    by_cases hp : p.1 = k
    · simp only [eraseKey, if_pos hp]
      exact ih h2
    · simp only [eraseKey, if_neg hp, DKeysNodup, dkeys_cons, List.nodup_cons]
      exact ⟨fun hm => h1 (mem_dkeys_eraseKey hm), ih h2⟩

theorem nodup_dinsert [DecidableEq κ] (k : κ) (v : ν) {l : List (κ × ν)}
    (h : DKeysNodup l) : DKeysNodup (dinsert k v l) := by
  simp only [dinsert, DKeysNodup, dkeys_cons, List.nodup_cons]
  exact ⟨not_mem_dkeys_eraseKey_self k l, nodup_eraseKey k h⟩

theorem mem_dlookup [DecidableEq κ] {l : List (κ × ν)} {a : κ} {b : ν} :
    DKeysNodup l → (a, b) ∈ l → dlookup l a = some b := by
  induction l with
  | nil => intro _ h; cases h
  | cons p t ih =>
    intro hn h
    simp only [DKeysNodup, dkeys_cons, List.nodup_cons] at hn
    obtain ⟨hnotin, hnt⟩ := hn
    rcases List.mem_cons.mp h with h1 | h2
    · rw [← h1]
      simp [dlookup]
    · have hfst : a ∈ dkeys t := by
        have := List.mem_map_of_mem Prod.fst h2
        simpa [dkeys] using this
      have hpa : p.1 ≠ a := fun he => hnotin (he ▸ hfst)
      rw [dlookup, if_neg hpa]
      exact ih hnt h2

/-! ## Lemmas about the set model -/

theorem mem_sinsert [DecidableEq β] (e a : β) (l : List β) :
    a ∈ sinsert e l ↔ a = e ∨ a ∈ l := by
  by_cases he : e ∈ l
  · simp only [sinsert, if_pos he]
    constructor
    · exact Or.inr
    · rintro (rfl | h)
      · exact he
      · exact h
  · simp [sinsert, if_neg he, List.mem_append, or_comm]

theorem nodup_sinsert [DecidableEq β] (e : β) {l : List β} (h : l.Nodup) :
    (sinsert e l).Nodup := by
  by_cases he : e ∈ l
  · simpa [sinsert, if_pos he] using h
  · simp only [sinsert, if_neg he]
    refine List.Nodup.append h (List.nodup_singleton e) ?_
    intro a ha hae
    rw [List.mem_singleton] at hae
    exact he (hae ▸ ha)

theorem mem_supdate [DecidableEq β] (a : β) (l es : List β) :
    a ∈ supdate l es ↔ a ∈ l ∨ a ∈ es := by
  induction es generalizing l with
  | nil => simp [supdate]
  | cons e t ih =>
    have h1 : supdate l (e :: t) = supdate (sinsert e l) t := rfl
    rw [h1, ih (sinsert e l), mem_sinsert]
    simp only [List.mem_cons]
    tauto

theorem nodup_supdate [DecidableEq β] {l : List β} (es : List β) (h : l.Nodup) :
    (supdate l es).Nodup := by
  induction es generalizing l with
  | nil => exact h
  | cons e t ih =>
    have h1 : supdate l (e :: t) = supdate (sinsert e l) t := rfl
    rw [h1]
    exact ih (nodup_sinsert e h)

theorem mem_pysetOf [DecidableEq β] (a : β) (l : List β) :
    a ∈ pysetOf l ↔ a ∈ l := by
  have := mem_supdate a [] l
  simpa [pysetOf] using this

theorem nodup_pysetOf [DecidableEq β] (l : List β) : (pysetOf l).Nodup :=
  nodup_supdate l List.nodup_nil

theorem supdate_of_fresh [DecidableEq β] {l acc : List β} :
    l.Nodup → (∀ a ∈ l, a ∉ acc) → supdate acc l = acc ++ l := by
  induction l generalizing acc with
  | nil => intro _ _; simp [supdate]
  | cons e t ih =>
    intro hn hd
    have h1 : supdate acc (e :: t) = supdate (sinsert e acc) t := rfl
    have he : e ∉ acc := hd e (List.mem_cons_self e t)
    have h2 : sinsert e acc = acc ++ [e] := by rw [sinsert, if_neg he]
    have hfresh : ∀ a ∈ t, a ∉ acc ++ [e] := by
      intro a ha hmem
      rcases List.mem_append.mp hmem with h | h
      · exact hd a (List.mem_cons_of_mem e ha) h
      · rw [List.mem_singleton] at h
        exact (List.nodup_cons.mp hn).1 (h ▸ ha)
    rw [h1, h2, ih (List.nodup_cons.mp hn).2 hfresh, List.append_assoc,
      List.singleton_append]

theorem pysetOf_eq_self [DecidableEq β] {l : List β} (h : l.Nodup) :
    pysetOf l = l := by
  have := supdate_of_fresh h (by intro a _ hmem; exact List.not_mem_nil a hmem)
  simpa [pysetOf] using this

/-! ## Lemmas about the paired-map loops (`buildPair`) -/

theorem mem_goodRows [DecidableEq α] [DecidableEq β]
    {rows : List (Option α × Option β)} {a : α} {b : β} :
    (a, b) ∈ goodRows rows ↔ (some a, some b) ∈ rows := by
  constructor
  · intro h
    rw [goodRows, List.mem_filterMap] at h
    obtain ⟨r, hr, hf⟩ := h
    rcases r with ⟨o1, o2⟩
    cases o1 <;> cases o2 <;> simp_all
  · intro h
    rw [goodRows, List.mem_filterMap]
    exact ⟨(some a, some b), h, rfl⟩

theorem foldPair_lookup_left [DecidableEq α] [DecidableEq β]
    (rows : List (Option α × Option β)) :
    ∀ (acc : List (α × β) × List (β × α)) (a : α) (b : β),
      dlookup (rows.foldl pairStep acc).1 a = some b →
      (a, b) ∈ goodRows rows ∨ dlookup acc.1 a = some b := by
  induction rows with
  | nil => intro acc a b h; exact Or.inr h
  | cons r t ih =>
    intro acc a b h
    rw [List.foldl_cons] at h
    rcases ih (pairStep acc r) a b h with h1 | h2
    · left
      rw [mem_goodRows] at h1 ⊢
      exact List.mem_cons_of_mem r h1
    · rcases r with ⟨o1, o2⟩
      cases o1 with
      | none => exact Or.inr h2
      | some x =>
        cases o2 with
        | none => exact Or.inr h2
        | some y =>
          rw [show pairStep acc (some x, some y) =
              (dinsert x y acc.1, dinsert y x acc.2) from rfl] at h2
          rw [dlookup_dinsert] at h2
          by_cases hax : a = x
          · rw [if_pos hax] at h2
            left
            rw [mem_goodRows, hax, Option.some.inj h2]
            exact List.mem_cons_self _ _
          · rw [if_neg hax] at h2
            exact Or.inr h2

theorem foldPair_lookup_right [DecidableEq α] [DecidableEq β]
    (rows : List (Option α × Option β)) :
    ∀ (acc : List (α × β) × List (β × α)) (a : α) (b : β),
      dlookup (rows.foldl pairStep acc).2 b = some a →
      (a, b) ∈ goodRows rows ∨ dlookup acc.2 b = some a := by
  induction rows with
  | nil => intro acc a b h; exact Or.inr h
  | cons r t ih =>
    intro acc a b h
    rw [List.foldl_cons] at h
    rcases ih (pairStep acc r) a b h with h1 | h2
    · left
      rw [mem_goodRows] at h1 ⊢
      exact List.mem_cons_of_mem r h1
    · rcases r with ⟨o1, o2⟩
      cases o1 with
      | none => exact Or.inr h2
      | some x =>
        cases o2 with
        | none => exact Or.inr h2
        | some y =>
          rw [show pairStep acc (some x, some y) =
              (dinsert x y acc.1, dinsert y x acc.2) from rfl] at h2
          rw [dlookup_dinsert] at h2
          by_cases hby : b = y
          · rw [if_pos hby] at h2
            left
            rw [mem_goodRows, hby, Option.some.inj h2]
            exact List.mem_cons_self _ _
          · rw [if_neg hby] at h2
            exact Or.inr h2

theorem foldPair_contains_mono_left [DecidableEq α] [DecidableEq β]
    (rows : List (Option α × Option β)) :
    ∀ (acc : List (α × β) × List (β × α)) (a : α),
      containsKey acc.1 a = true → containsKey (rows.foldl pairStep acc).1 a = true := by
  induction rows with
  | nil => intro acc a h; exact h
  | cons r t ih =>
    intro acc a h
    rw [List.foldl_cons]
    apply ih
    rcases r with ⟨o1, o2⟩
    cases o1 with
    | none => exact h
    | some x =>
      cases o2 with
      | none => exact h
      | some y =>
        rw [show pairStep acc (some x, some y) =
            (dinsert x y acc.1, dinsert y x acc.2) from rfl]
        rw [containsKey] at h ⊢
        rw [dlookup_dinsert]
        by_cases hax : a = x
        · rw [if_pos hax]; rfl
        · rw [if_neg hax]; exact h

theorem foldPair_contains_mono_right [DecidableEq α] [DecidableEq β]
    (rows : List (Option α × Option β)) :
    ∀ (acc : List (α × β) × List (β × α)) (b : β),
      containsKey acc.2 b = true → containsKey (rows.foldl pairStep acc).2 b = true := by
  induction rows with
  | nil => intro acc b h; exact h
  | cons r t ih =>
    intro acc b h
    rw [List.foldl_cons]
    apply ih
    rcases r with ⟨o1, o2⟩
    cases o1 with
    | none => exact h
    | some x =>
      cases o2 with
      | none => exact h
      | some y =>
        rw [show pairStep acc (some x, some y) =
            (dinsert x y acc.1, dinsert y x acc.2) from rfl]
        rw [containsKey] at h ⊢
        rw [dlookup_dinsert]
        by_cases hby : b = y
        · rw [if_pos hby]; rfl
        · rw [if_neg hby]; exact h

theorem foldPair_contains_of_mem_left [DecidableEq α] [DecidableEq β]
    (rows : List (Option α × Option β)) :
    ∀ (acc : List (α × β) × List (β × α)) {a : α} {b : β},
      (a, b) ∈ goodRows rows → containsKey (rows.foldl pairStep acc).1 a = true := by
  induction rows with
  | nil => intro acc a b h; rw [mem_goodRows] at h; cases h
  | cons r t ih =>
    intro acc a b h
    rw [List.foldl_cons]
    rw [mem_goodRows] at h
    rcases List.mem_cons.mp h with h1 | h2
    · apply foldPair_contains_mono_left
      rw [← h1]
      rw [show pairStep acc (some a, some b) =
          (dinsert a b acc.1, dinsert b a acc.2) from rfl]
      rw [containsKey, dlookup_dinsert, if_pos rfl]
      rfl
    · exact ih (pairStep acc r) (mem_goodRows.mpr h2)

theorem foldPair_contains_of_mem_right [DecidableEq α] [DecidableEq β]
    (rows : List (Option α × Option β)) :
    ∀ (acc : List (α × β) × List (β × α)) {a : α} {b : β},
      (a, b) ∈ goodRows rows → containsKey (rows.foldl pairStep acc).2 b = true := by
  induction rows with
  | nil => intro acc a b h; rw [mem_goodRows] at h; cases h
  | cons r t ih =>
    intro acc a b h
    rw [List.foldl_cons]
    rw [mem_goodRows] at h
    rcases List.mem_cons.mp h with h1 | h2
    · apply foldPair_contains_mono_right
      rw [← h1]
      rw [show pairStep acc (some a, some b) =
          (dinsert a b acc.1, dinsert b a acc.2) from rfl]
      rw [containsKey, dlookup_dinsert, if_pos rfl]
      rfl
    · exact ih (pairStep acc r) (mem_goodRows.mpr h2)

theorem buildPair_inverse_left [DecidableEq α] [DecidableEq β]
    {rows : List (Option α × Option β)} (h : OneToOne (goodRows rows))
    {a : α} {b : β} (hl : dlookup (buildPair rows).1 a = some b) :
    dlookup (buildPair rows).2 b = some a := by
  have hmem : (a, b) ∈ goodRows rows := by
    rcases foldPair_lookup_left rows ([], []) a b hl with h1 | h2
    · exact h1
    · simp [dlookup] at h2
  have hc : containsKey (buildPair rows).2 b = true :=
    foldPair_contains_of_mem_right rows ([], []) hmem
  rw [containsKey] at hc
  obtain ⟨a2, ha2⟩ := Option.isSome_iff_exists.mp hc
  have hmem2 : (a2, b) ∈ goodRows rows := by
    rcases foldPair_lookup_right rows ([], []) a2 b ha2 with h1 | h2
    · exact h1
    · simp [dlookup] at h2
  have ha : a2 = a := ((h (a, b) hmem (a2, b) hmem2).mpr rfl).symm
  rw [ha2, ha]

theorem buildPair_inverse_right [DecidableEq α] [DecidableEq β]
    {rows : List (Option α × Option β)} (h : OneToOne (goodRows rows))
    {a : α} {b : β} (hl : dlookup (buildPair rows).2 b = some a) :
    dlookup (buildPair rows).1 a = some b := by
  have hmem : (a, b) ∈ goodRows rows := by
    rcases foldPair_lookup_right rows ([], []) a b hl with h1 | h2
    · exact h1
    · simp [dlookup] at h2
  have hc : containsKey (buildPair rows).1 a = true :=
    foldPair_contains_of_mem_left rows ([], []) hmem
  rw [containsKey] at hc
  obtain ⟨b2, hb2⟩ := Option.isSome_iff_exists.mp hc
  have hmem2 : (a, b2) ∈ goodRows rows := by
    rcases foldPair_lookup_left rows ([], []) a b2 hb2 with h1 | h2
    · exact h1
    · simp [dlookup] at h2
  have hb : b2 = b := ((h (a, b) hmem (a, b2) hmem2).mp rfl).symm
  rw [hb2, hb]

/-! ## Lemmas about the hierarchy maps -/

theorem memAt_nil [DecidableEq κ] [DecidableEq β] (k : κ) (e : β) :
    ¬ memAt ([] : List (κ × List β)) k e := by
  rintro ⟨s, hs, _⟩
  simp [dlookup] at hs

theorem memAt_dAddToSet [DecidableEq κ] [DecidableEq β] (m : List (κ × List β))
    (k : κ) (e : β) (p : κ) (x : β) :
    memAt (dAddToSet m k e) p x ↔ memAt m p x ∨ (p = k ∧ x = e) := by
  by_cases hpk : p = k
  · subst hpk
    rcases hm : dlookup m p with _ | s
    · simp [dAddToSet, hm, memAt, dlookup_dinsert, mem_sinsert]
      try tauto
    · simp [dAddToSet, hm, memAt, dlookup_dinsert, mem_sinsert]
      try tauto
  · rcases hm : dlookup m k with _ | s
    · simp [dAddToSet, hm, memAt, dlookup_dinsert, hpk]
      try tauto
    · simp [dAddToSet, hm, memAt, dlookup_dinsert, hpk]
      try tauto

theorem memAt_dUnionToSet [DecidableEq κ] [DecidableEq β] (m : List (κ × List β))
    (k : κ) (es : List β) (p : κ) (x : β) :
    memAt (dUnionToSet m k es) p x ↔ memAt m p x ∨ (p = k ∧ x ∈ es) := by
  by_cases hpk : p = k
  · subst hpk
    rcases hm : dlookup m p with _ | s
    · simp [dUnionToSet, hm, memAt, dlookup_dinsert, mem_supdate]
      try tauto
    · simp [dUnionToSet, hm, memAt, dlookup_dinsert, mem_supdate]
      try tauto
  · rcases hm : dlookup m k with _ | s
    · simp [dUnionToSet, hm, memAt, dlookup_dinsert, hpk]
      try tauto
    · simp [dUnionToSet, hm, memAt, dlookup_dinsert, hpk]
      try tauto

theorem memAt_inner_fold [DecidableEq α] (vs : List α) (k : α) :
    ∀ (acc : List (α × List α)) (p c : α),
      memAt (vs.foldl (fun acc2 v => dAddToSet acc2 v k) acc) p c ↔
        memAt acc p c ∨ (p ∈ vs ∧ c = k) := by
  induction vs with
  | nil => intro acc p c; simp
  | cons v t ih =>
    intro acc p c
    rw [List.foldl_cons, ih (dAddToSet acc v k) p c, memAt_dAddToSet]
    simp only [List.mem_cons]
    tauto

theorem memAt_outer_fold [DecidableEq α] (l : List (α × List α)) :
    ∀ (acc : List (α × List α)) (p c : α),
      memAt (l.foldl (fun acc2 e => e.2.foldl (fun a2 v => dAddToSet a2 v e.1) acc2) acc)
        p c ↔
      memAt acc p c ∨ ∃ e ∈ l, p ∈ e.2 ∧ c = e.1 := by
  induction l with
  | nil => intro acc p c; simp
  | cons q t ih =>
    intro acc p c
    rw [List.foldl_cons, ih, memAt_inner_fold]
    rw [List.exists_mem_cons_iff]
    tauto

theorem memAt_invertHier [DecidableEq α] (l : List (α × List α)) (p c : α) :
    memAt (invertHier l) p c ↔ ∃ e ∈ l, p ∈ e.2 ∧ c = e.1 := by
  rw [invertHier, memAt_outer_fold]
  constructor
  · rintro (h | h)
    · exact absurd h (memAt_nil p c)
    · exact h
  · exact Or.inr

theorem nodup_dAddToSet [DecidableEq κ] [DecidableEq β] (m : List (κ × List β))
    (k : κ) (e : β) (h : DKeysNodup m) : DKeysNodup (dAddToSet m k e) := by
  rcases hm : dlookup m k with _ | s
  · simp only [dAddToSet, hm]
    exact nodup_dinsert _ _ h
  · simp only [dAddToSet, hm]
    exact nodup_dinsert _ _ h

theorem nodup_dUnionToSet [DecidableEq κ] [DecidableEq β] (m : List (κ × List β))
    (k : κ) (es : List β) (h : DKeysNodup m) : DKeysNodup (dUnionToSet m k es) := by
  rcases hm : dlookup m k with _ | s
  · simp only [dUnionToSet, hm]
    exact nodup_dinsert _ _ h
  · simp only [dUnionToSet, hm]
    exact nodup_dinsert _ _ h

theorem nodup_foldl_dAddToSet [DecidableEq κ] [DecidableEq β]
    (f : γ → κ) (g : γ → β) (rows : List γ) :
    ∀ acc, DKeysNodup acc →
      DKeysNodup (rows.foldl (fun a q => dAddToSet a (f q) (g q)) acc) := by
  induction rows with
  | nil => intro acc h; exact h
  | cons q t ih => intro acc h; exact ih _ (nodup_dAddToSet _ _ _ h)

theorem nodup_foldl_dUnionToSet [DecidableEq κ] [DecidableEq β]
    (f : γ → κ) (g : γ → List β) (rows : List γ) :
    ∀ acc, DKeysNodup acc →
      DKeysNodup (rows.foldl (fun a q => dUnionToSet a (f q) (g q)) acc) := by
  induction rows with
  | nil => intro acc h; exact h
  | cons q t ih => intro acc h; exact ih _ (nodup_dUnionToSet _ _ _ h)

theorem nodup_genParents (r : Rows) : DKeysNodup (genParents r) := by
  rw [genParents]
  exact nodup_foldl_dUnionToSet
    (fun (q : Option Int × Option Int × Option Int) =>
      get_chembl_ident (genBase r) none q.1 none)
    (fun (q : Option Int × Option Int × Option Int) =>
      pysetOf [get_chembl_ident (genBase r) none q.2.1 none,
               get_chembl_ident (genBase r) none q.2.2 none])
    r.db_hier_rows _
    (nodup_foldl_dAddToSet
      (fun (q : Option Int × Option Int) => get_chembl_ident (genBase r) q.1 none none)
      (fun (q : Option Int × Option Int) => get_chembl_ident (genBase r) q.2 none none)
      r.chembl_hier_rows [] (by simp [DKeysNodup, dkeys]))

/-! ## Lemmas about persistence -/

theorem identOfTuple_identTuple (o : ChemblIdent) : identOfTuple (identTuple o) = o := rfl

theorem identTuple_inj {a b : ChemblIdent} (h : identTuple a = identTuple b) : a = b := by
  cases a
  cases b
  simpa [identTuple, Prod.ext_iff] using h

theorem saveHier_roundtrip
    {l : List (Option ChemblIdent × List (Option ChemblIdent))}
    (h : ∀ e ∈ l, e.1.isSome = true ∧ e.2.Nodup ∧ ∀ v ∈ e.2, v.isSome = true) :
    ∃ saved, saveHier l = some saved ∧ loadHier saved = l := by
  induction l with
  | nil => exact ⟨[], rfl, rfl⟩
  | cons e t ih =>
    obtain ⟨h1, h2, h3⟩ := h e (List.mem_cons_self e t)
    obtain ⟨saved, hs, hl⟩ := ih (fun x hx => h x (List.mem_cons_of_mem e hx))
    obtain ⟨o, ho⟩ := Option.isSome_iff_exists.mp h1
    have hall : e.2.all (fun v => v.isSome) = true := by
      rw [List.all_eq_true]
      exact h3
    have hmapnodup : (e.2.map fun v => identTuple (v.getD ⟨none, none, none⟩)).Nodup := by
      refine List.Nodup.map_on ?_ h2
      intro x hx y hy hxy
      obtain ⟨xo, hxo⟩ := Option.isSome_iff_exists.mp (h3 x hx)
      obtain ⟨yo, hyo⟩ := Option.isSome_iff_exists.mp (h3 y hy)
      subst hxo
      subst hyo
      simp only [Option.getD_some] at hxy
      rw [identTuple_inj hxy]
    have hkey : keyTuple e.1 = some (identTuple o) := by
      rw [ho]
      rfl
    have hset : setTuples e.2 =
        some (e.2.map fun v => identTuple (v.getD ⟨none, none, none⟩)) := by
      rw [setTuples, if_pos hall, pysetOf_eq_self hmapnodup]
    refine ⟨(identTuple o, e.2.map fun v => identTuple (v.getD ⟨none, none, none⟩))
        :: saved, ?_, ?_⟩
    · simp only [saveHier, hkey, hset, hs]
    · have hvals : ((e.2.map fun v => identTuple (v.getD ⟨none, none, none⟩)).map
          fun t2 => some (identOfTuple t2)) = e.2 := by
        rw [List.map_map]
        have hcongr : ∀ v ∈ e.2,
            ((fun t2 => some (identOfTuple t2)) ∘
              fun v => identTuple (v.getD ⟨none, none, none⟩)) v = id v := by
          intro v hv
          obtain ⟨vo, hvo⟩ := Option.isSome_iff_exists.mp (h3 v hv)
          subst hvo
          rfl
        rw [List.map_congr_left hcongr, List.map_id]
      simp only [loadHier, List.map_cons] at hl ⊢
      rw [hvals, pysetOf_eq_self h2, identOfTuple_identTuple, ← ho, hl]

/-! ## The lexicographic tuple order is trichotomous -/

theorem tripleLt_trichotomy (t u : Int × Int × Int) :
    (tripleLt t u = true ∧ tripleLt u t = false ∧ t ≠ u) ∨
    (tripleLt t u = false ∧ tripleLt u t = true ∧ t ≠ u) ∨
    (tripleLt t u = false ∧ tripleLt u t = false ∧ t = u) := by
  obtain ⟨a1, a2, a3⟩ := t
  obtain ⟨b1, b2, b3⟩ := u
  simp only [tripleLt, Bool.or_eq_true, Bool.and_eq_true, decide_eq_true_eq,
    Bool.or_eq_false_iff, Bool.and_eq_false_iff, decide_eq_false_iff_not,
    Prod.mk.injEq, ne_eq, not_and]
  by_cases h1 : a1 = b1
  · by_cases h2 : a2 = b2
    · by_cases h3 : a3 = b3
      · subst h1; subst h2; subst h3
        right; right
        omega
      · subst h1; subst h2
        rcases lt_trichotomy a3 b3 with h | h | h
        · left; omega
        · exact absurd h h3
        · right; left; omega
    · subst h1
      rcases lt_trichotomy a2 b2 with h | h | h
      · left; omega
      · exact absurd h h2
      · right; left; omega
  · rcases lt_trichotomy a1 b1 with h | h | h
    · left; omega
    · exact absurd h h1
    · right; left; omega

/-! ## The claims -/

/-- C1 counterexample: the claim states that any failure while loading
sets every one of the ten maps to absent.  With the two phase files
missing, loading fails, yet after the handler in `__init__` the
`source_map` and `drugbase_id2source_id` attributes still hold the
loaded data -- the handler resets only six of the ten maps. -/
theorem C1_counterexample :
    (load_indexes lateFailBlobs initialState).2 = false ∧
    (chembl_indexes_init lateFailBlobs).source_map = some [] ∧
    (chembl_indexes_init lateFailBlobs).drugbase_id2source_id = some [] :=
  ⟨rfl, rfl, rfl⟩

/-- C1 (amended): on any failure during `load_indexes`, `__init__` sets
exactly the four one-to-one maps and the two hierarchy maps to absent;
the phase and source maps are left as they were at the point of failure
(unset if not yet reached, retaining loaded data otherwise). -/
theorem C1_init_failure_resets_six_maps (b : SavedBlobs)
    (h : (load_indexes b initialState).2 = false) :
    (chembl_indexes_init b).drugbase_id2mrn = none ∧
    (chembl_indexes_init b).mrn2drugbase_id = none ∧
    (chembl_indexes_init b).chembl_id2mrn = none ∧
    (chembl_indexes_init b).mrn2chembl_id = none ∧
    (chembl_indexes_init b).compound_parents = none ∧
    (chembl_indexes_init b).compound_children = none := by
  simp only [chembl_indexes_init, h]
  simp

/-- C1 witness: the amended theorem applied to the concrete blob set
whose phase files are missing. -/
theorem C1_init_failure_witness :
    (chembl_indexes_init lateFailBlobs).drugbase_id2mrn = none ∧
    (chembl_indexes_init lateFailBlobs).mrn2drugbase_id = none ∧
    (chembl_indexes_init lateFailBlobs).chembl_id2mrn = none ∧
    (chembl_indexes_init lateFailBlobs).mrn2chembl_id = none ∧
    (chembl_indexes_init lateFailBlobs).compound_parents = none ∧
    (chembl_indexes_init lateFailBlobs).compound_children = none :=
  C1_init_failure_resets_six_maps lateFailBlobs rfl

/-- C2 counterexample: the claim states that no query method raises on
a missing key, and in particular that `get_sources` does not raise when
a recorded source id is absent from the source-name map.  In
`sourcesStore` secondary id `1` records source id `5`, `source_map` is
empty, and `get_sources` raises `KeyError` (modelled as `none`). -/
theorem C2_counterexample : get_sources sourcesStore 1 = none := rfl

/-- C2 (amended): every map access in the query methods other than
`get_sources` is membership-guarded (those methods are total in this
embedding and return absent on any miss); `get_sources` returns the
empty set, without raising, when the secondary id itself is unmapped,
but raises `KeyError` exactly when the id's recorded source-id set
contains a source id that is not a key of `source_map`. -/
theorem C2_get_sources_characterisation (s : ChemblIndexes) (d : Int) :
    (get_sources s d = none ↔ ∃ ids, dlookup s.drugbase_id2source_id d = some ids ∧
        ∃ x ∈ ids, containsKey s.source_map x = false) ∧
    (dlookup s.drugbase_id2source_id d = none → get_sources s d = some []) := by
  constructor
  · rcases hd : dlookup s.drugbase_id2source_id d with _ | ids
    · simp [get_sources, hd]
    · simp only [get_sources, hd, Option.some.injEq]
      by_cases hall : ids.all (fun x => containsKey s.source_map x) = true
      · rw [if_pos hall]
        rw [List.all_eq_true] at hall
        constructor
        · intro h
          exact absurd h (Option.some_ne_none _)
        · rintro ⟨ids2, hids2, x, hxmem, hxfalse⟩
          subst hids2
          simp [hall x hxmem] at hxfalse
      · rw [if_neg hall]
        constructor
        · intro _
          rw [List.all_eq_true] at hall
          push_neg at hall
          obtain ⟨x, hxmem, hx⟩ := hall
          exact ⟨ids, rfl, x, hxmem, by simpa using hx⟩
        · intro _
          rfl
  · intro hd
    simp [get_sources, hd]

/-- C2 witness: the amended theorem applied to an unmapped secondary
id, giving the empty set without an exception. -/
theorem C2_sources_witness : get_sources sourcesStore 7 = some [] :=
  (C2_get_sources_characterisation sourcesStore 7).2 rfl

/-- C3 counterexample: the claim states the resolver returns absent iff
all three fields of the identifier it would construct are absent.  With
registry number `0` supplied (a present, non-null value) and an empty
store, `any([0, None, None])` is false and the resolver returns `None`
even though the identifier would carry the present field `0`. -/
theorem C3_counterexample :
    resolvedMolregno emptyStore (some 0) none none = some 0 ∧
    get_chembl_ident emptyStore (some 0) none none = none :=
  ⟨rfl, rfl⟩

/-- C3 (amended): the resolver returns absent iff all three derived
fields are Python-falsy (`None`, `0`, or `""`); whenever at least one
derived field is truthy, the identifier carrying exactly the derived
triple is returned. -/
theorem C3_resolver_none_iff_falsy (s : ChemblIndexes) (m d : Option Int)
    (c : Option String) :
    (get_chembl_ident s m d c = none ↔
      intTruthy (resolvedMolregno s m d c) = false ∧
      intTruthy (resolvedDrugbaseId s m d c) = false ∧
      strTruthy (resolvedChemblId s m d c) = false) ∧
    ((intTruthy (resolvedMolregno s m d c) = true ∨
      intTruthy (resolvedDrugbaseId s m d c) = true ∨
      strTruthy (resolvedChemblId s m d c) = true) →
      get_chembl_ident s m d c =
        some ⟨resolvedChemblId s m d c, resolvedDrugbaseId s m d c,
              resolvedMolregno s m d c⟩) := by
  constructor
  · constructor
    · intro h
      rw [get_chembl_ident] at h
      by_cases h1 : intTruthy (resolvedMolregno s m d c) = true <;>
        by_cases h2 : intTruthy (resolvedDrugbaseId s m d c) = true <;>
          by_cases h3 : strTruthy (resolvedChemblId s m d c) = true <;>
            simp_all
    · rintro ⟨h1, h2, h3⟩
      rw [get_chembl_ident]
      simp [h1, h2, h3]
  · intro h
    rw [get_chembl_ident]
    rcases h with h | h | h <;> simp [h]

/-- C3 witness: resolving secondary id `2` in `resolveStore` fills in
registry number `200` and accession id `CHEMBL2`. -/
theorem C3_resolver_witness :
    get_chembl_ident resolveStore none (some 2) none =
      some ⟨some "CHEMBL2", some 2, some 200⟩ :=
  (C3_resolver_none_iff_falsy resolveStore none (some 2) none).2 (Or.inl (by decide))

/-- C4 counterexample: the claim states that for a resolvable
identifier `get_phase` is absent iff both phase maps lack the relevant
key.  In `nullPhaseStore` the registry-phase map contains key `100`
bound to a null phase; resolution of registry number `100` succeeds,
yet `get_phase` returns absent although the key is present. -/
theorem C4_counterexample :
    containsKey nullPhaseStore.mrn2phase 100 = true ∧
    get_chembl_ident nullPhaseStore (some 100) none none =
      some ⟨none, none, some 100⟩ ∧
    get_phase nullPhaseStore none none (some 100) none = none :=
  ⟨rfl, rfl, rfl⟩

/-- C4 (amended): for every identifier that resolves successfully,
`get_phase` returns the sentinel-substituted maximum of the two phase
lookups when that maximum exceeds `-5`, and absent otherwise; a key
bound to a null phase counts as absent, so the result is absent iff on
each side the effective value (`-5` when the key is missing or bound to
null) is at most `-5`. -/
theorem C4_phase_sentinel_max (s : ChemblIndexes) (d m : Option Int)
    (c : Option String) (o : ChemblIdent)
    (h : get_chembl_ident s m d c = some o) :
    get_phase s none d m c =
      (if max (((olookup s.mrn2phase o.molregno).join).getD (-5))
              (((olookup s.drugbase_id2phase o.drugbase_id).join).getD (-5)) > -5
       then some (max (((olookup s.mrn2phase o.molregno).join).getD (-5))
                      (((olookup s.drugbase_id2phase o.drugbase_id).join).getD (-5)))
       else none) ∧
    (get_phase s none d m c = none ↔
      ((olookup s.mrn2phase o.molregno).join).getD (-5) ≤ -5 ∧
      ((olookup s.drugbase_id2phase o.drugbase_id).join).getD (-5) ≤ -5) := by
  set p1 := ((olookup s.mrn2phase o.molregno).join).getD (-5) with hp1
  set p2 := ((olookup s.drugbase_id2phase o.drugbase_id).join).getD (-5) with hp2
  have hu : get_phase s none d m c =
      (if max p1 p2 > -5 then some (max p1 p2) else none) := by
    rw [hp1, hp2]
    simp only [get_phase, h]
  refine ⟨hu, ?_⟩
  rw [hu]
  constructor
  · intro hnone
    by_cases hgt : max p1 p2 > -5
    · rw [if_pos hgt] at hnone
      exact absurd hnone (Option.some_ne_none _)
    · have hle := not_lt.mp hgt
      exact ⟨le_trans (le_max_left p1 p2) hle, le_trans (le_max_right p1 p2) hle⟩
  · rintro ⟨hle1, hle2⟩
    rw [if_neg (not_lt.mpr (max_le hle1 hle2))]

/-- C4 witness: the amended theorem applied to `nullPhaseStore`. -/
theorem C4_phase_witness :
    get_phase nullPhaseStore none none (some 100) none = none :=
  ((C4_phase_sentinel_max nullPhaseStore none (some 100) none
      ⟨none, none, some 100⟩ rfl).2).mpr (by decide)

/-- C5 counterexample: the claim states the one-to-one maps are exact
inverses after building from any row sources.  With the two rows
`(1, 100)` and `(2, 100)` the later row overwrites the reverse
direction, and the round trip from key `1` returns `2`. -/
theorem C5_counterexample :
    dlookup (gen_indexes dupRows).drugbase_id2mrn 1 = some 100 ∧
    dlookup (gen_indexes dupRows).mrn2drugbase_id 100 = some 2 ∧
    (2 : Int) ≠ 1 :=
  ⟨rfl, rfl, by decide⟩

/-- C5 (amended): whenever the retained rows of a paired-map loop form
a partial bijection (no two rows share one field but differ in the
other), the two maps of each pair are exact inverses of one another, in
both directions, for both the secondary-id pair and the accession-id
pair. -/
theorem C5_one2one_inverse (r : Rows)
    (h1 : OneToOne (goodRows r.drugbase_rows))
    (h2 : OneToOne (goodRows r.chembl_rows)) :
    (∀ d m, dlookup (gen_indexes r).drugbase_id2mrn d = some m →
        dlookup (gen_indexes r).mrn2drugbase_id m = some d) ∧
    (∀ m d, dlookup (gen_indexes r).mrn2drugbase_id m = some d →
        dlookup (gen_indexes r).drugbase_id2mrn d = some m) ∧
    (∀ c m, dlookup (gen_indexes r).chembl_id2mrn c = some m →
        dlookup (gen_indexes r).mrn2chembl_id m = some c) ∧
    (∀ m c, dlookup (gen_indexes r).mrn2chembl_id m = some c →
        dlookup (gen_indexes r).chembl_id2mrn c = some m) := by
  have e1 : (gen_indexes r).drugbase_id2mrn = (buildPair r.drugbase_rows).1 := rfl
  have e2 : (gen_indexes r).mrn2drugbase_id = (buildPair r.drugbase_rows).2 := rfl
  have e3 : (gen_indexes r).chembl_id2mrn = (buildPair r.chembl_rows).1 := rfl
  have e4 : (gen_indexes r).mrn2chembl_id = (buildPair r.chembl_rows).2 := rfl
  rw [e1, e2, e3, e4]
  exact ⟨fun d m h => buildPair_inverse_left h1 h,
         fun m d h => buildPair_inverse_right h1 h,
         fun c m h => buildPair_inverse_left h2 h,
         fun m c h => buildPair_inverse_right h2 h⟩

/-- C5 witness: the amended theorem applied to the one-to-one row
sources `okRows`. -/
theorem C5_one2one_witness :
    dlookup (gen_indexes okRows).mrn2drugbase_id 200 = some 2 :=
  (C5_one2one_inverse okRows (by decide) (by decide)).1 2 200 rfl

/-- C6: after build, the two hierarchy maps are mutual inverses: for
every entry `(child, parents)` of `compound_parents` and every `p` in
`parents`, `child` is a member of `compound_children[p]`; and
conversely, for every entry `(parent, children)` of `compound_children`
and every `c` in `children`, `parent` is a member of
`compound_parents[c]`. -/
theorem C6_hierarchy_mutual_inverse (r : Rows) :
    (∀ child parents,
      dlookup (gen_indexes r).compound_parents child = some parents →
      ∀ p ∈ parents, memAt (gen_indexes r).compound_children p child) ∧
    (∀ parent children,
      dlookup (gen_indexes r).compound_children parent = some children →
      ∀ c ∈ children, memAt (gen_indexes r).compound_parents c parent) := by
  have hpc : (gen_indexes r).compound_parents = genParents r := rfl
  have hcc : (gen_indexes r).compound_children = invertHier (genParents r) := rfl
  rw [hpc, hcc]
  constructor
  · intro child parents hl p hp
    rw [memAt_invertHier]
    exact ⟨(child, parents), dlookup_mem hl, hp, rfl⟩
  · intro parent children hl c hc
    have hmem : memAt (invertHier (genParents r)) parent c := ⟨children, hl, hc⟩
    rw [memAt_invertHier] at hmem
    obtain ⟨e, he, hpe, hc2⟩ := hmem
    refine ⟨e.2, ?_, hpe⟩
    rw [hc2]
    exact mem_dlookup (nodup_genParents r) he

/-- C6 witness: building from `okRows` puts the hierarchy edge
`200 → 100` into `compound_parents`, and the inverse membership holds
in `compound_children`. -/
theorem C6_hierarchy_witness :
    memAt (gen_indexes okRows).compound_children
      (some ⟨some "CHEMBL1", some 1, some 100⟩)
      (some ⟨some "CHEMBL2", some 2, some 200⟩) :=
  (C6_hierarchy_mutual_inverse okRows).1
    (some ⟨some "CHEMBL2", some 2, some 200⟩)
    [some ⟨some "CHEMBL1", some 1, some 100⟩]
    (by decide)
    (some ⟨some "CHEMBL1", some 1, some 100⟩)
    (by decide)

/-- C7: saving all ten maps and loading them into a fresh store
reproduces every map exactly.  The hypotheses record what is invariant
for every store this program ever saves: hierarchy keys and members are
actual identifiers (Python `None` there would make `save_indexes` raise
before writing), and stored sets contain no duplicates. -/
theorem C7_save_load_roundtrip (s : ChemblIndexes)
    (hp : ∀ e ∈ s.compound_parents,
      e.1.isSome = true ∧ e.2.Nodup ∧ ∀ v ∈ e.2, v.isSome = true)
    (hc : ∀ e ∈ s.compound_children,
      e.1.isSome = true ∧ e.2.Nodup ∧ ∀ v ∈ e.2, v.isSome = true)
    (hsrc : ∀ e ∈ s.drugbase_id2source_id, e.2.Nodup) :
    ∃ b, save_indexes s = some b ∧
      load_indexes b initialState =
        (⟨some s.drugbase_id2mrn, some s.mrn2drugbase_id, some s.chembl_id2mrn,
          some s.mrn2chembl_id, some s.compound_parents, some s.compound_children,
          some s.source_map, some s.drugbase_id2source_id, some s.mrn2phase,
          some s.drugbase_id2phase⟩, true) := by
  obtain ⟨ps, hps, hlp⟩ := saveHier_roundtrip hp
  obtain ⟨cs, hcs, hlc⟩ := saveHier_roundtrip hc
  have hsrc2 : (s.drugbase_id2source_id.map fun e => (e.1, pysetOf e.2)) =
      s.drugbase_id2source_id := by
    have hcongr : ∀ e ∈ s.drugbase_id2source_id,
        (fun e => (e.1, pysetOf e.2)) e = id e := by
      intro e he
      simp [pysetOf_eq_self (hsrc e he)]
    rw [List.map_congr_left hcongr, List.map_id]
  refine ⟨⟨some s.drugbase_id2mrn, some s.mrn2drugbase_id, some s.chembl_id2mrn,
      some s.mrn2chembl_id, some ps, some cs, some s.source_map,
      some s.drugbase_id2source_id, some s.mrn2phase, some s.drugbase_id2phase⟩,
      ?_, ?_⟩
  · simp only [save_indexes, hps, hcs]
  · simp only [load_indexes, hlp, hlc, hsrc2]

/-- C7 witness: the round trip applied to the concrete store
`hierStore`. -/
theorem C7_roundtrip_witness :
    ∃ b, save_indexes hierStore = some b ∧
      load_indexes b initialState =
        (⟨some hierStore.drugbase_id2mrn, some hierStore.mrn2drugbase_id,
          some hierStore.chembl_id2mrn, some hierStore.mrn2chembl_id,
          some hierStore.compound_parents, some hierStore.compound_children,
          some hierStore.source_map, some hierStore.drugbase_id2source_id,
          some hierStore.mrn2phase, some hierStore.drugbase_id2phase⟩, true) :=
  C7_save_load_roundtrip hierStore (by decide) (by decide) (by decide)

/-- C8 counterexample: the claim states that whenever the secondary and
accession ids are both given and map to different registry numbers, an
identifier carrying the secondary-derived registry number is returned.
With the falsy values `0` and `""` (both mapped, to the differing
registry numbers `0` and `5`), `any([0, 0, ""])` is false and nothing
is returned at all. -/
theorem C8_counterexample :
    dlookup falsyStore.drugbase_id2mrn 0 = some 0 ∧
    dlookup falsyStore.chembl_id2mrn "" = some 5 ∧
    (0 : Int) ≠ 5 ∧
    get_chembl_ident falsyStore none (some 0) (some "") = none :=
  ⟨rfl, rfl, by decide, rfl⟩

/-- C8 (amended): when the registry number is not given, both other ids
are given and each is mapped, with different registry numbers, the
resolver returns the identifier carrying the secondary-derived registry
number -- with no conflict detection -- provided at least one of the
three resulting values is truthy (nonzero / nonempty); when all three
are falsy no identifier is returned. -/
theorem C8_secondary_priority (s : ChemblIndexes) (d : Int) (c : String) (m1 m2 : Int)
    (h1 : dlookup s.drugbase_id2mrn d = some m1)
    (_h2 : dlookup s.chembl_id2mrn c = some m2)
    (_hne : m1 ≠ m2)
    (ht : m1 ≠ 0 ∨ d ≠ 0 ∨ c ≠ "") :
    get_chembl_ident s none (some d) (some c) = some ⟨some c, some d, some m1⟩ := by
  have hm : resolvedMolregno s none (some d) (some c) = some m1 := by
    simp only [resolvedMolregno, get_molregno, olookup, h1]
  have hcc : resolvedChemblId s none (some d) (some c) = some c := rfl
  have hdd : resolvedDrugbaseId s none (some d) (some c) = some d := rfl
  have hb : (intTruthy (resolvedMolregno s none (some d) (some c)) ||
      intTruthy (resolvedDrugbaseId s none (some d) (some c)) ||
      strTruthy (resolvedChemblId s none (some d) (some c))) = true := by
    rw [hm, hcc, hdd]
    rcases ht with h | h | h
    · simp [intTruthy, h]
    · simp [intTruthy, h]
    · simp [strTruthy, h]
  rw [get_chembl_ident, if_pos hb, hm, hcc, hdd]

/-- C8 witness: in `conflictStore` the secondary id `1` maps to `100`
and the accession id `CHEMBL9` to `900`; resolution carries `100`. -/
theorem C8_priority_witness :
    get_chembl_ident conflictStore none (some 1) (some "CHEMBL9") =
      some ⟨some "CHEMBL9", some 1, some 100⟩ :=
  C8_secondary_priority conflictStore 1 "CHEMBL9" 100 900 rfl rfl (by decide)
    (Or.inl (by decide))

/-- C9 counterexample: the claim states the comparison is trichotomous
with respect to structural equality.  The structurally distinct
identifiers with accession ids `CHEMBL7` and `CHEMBL07` share the
comparison key `7` after prefix stripping: neither is less than the
other, yet they are not equal. -/
theorem C9_counterexample :
    identLt ⟨some "CHEMBL7", none, none⟩ ⟨some "CHEMBL07", none, none⟩ = some false ∧
    identLt ⟨some "CHEMBL07", none, none⟩ ⟨some "CHEMBL7", none, none⟩ = some false ∧
    identEq ⟨some "CHEMBL7", none, none⟩ ⟨some "CHEMBL07", none, none⟩ = false := by
  refine ⟨?_, ?_, ?_⟩ <;> decide

/-- C9 (amended): the comparison is a total order on the derived
integer key tuples, not on identifiers: for identifiers whose accession
ids parse, exactly one of `a < b`, `b < a`, or key-tuple equality
holds (key equality can relate structurally distinct identifiers); and
a null field, keyed as `-1`, orders strictly before any value whose key
exceeds `-1` -- a null accession id before every accession id with a
suffix parsing above `-1`, and, other components being equal, a null
secondary id / registry number before every value above `-1`. -/
theorem C9_order_trichotomy_on_keys :
    (∀ a b ta tb, get_tuple a = some ta → get_tuple b = some tb →
      ((identLt a b = some true ∧ identLt b a = some false ∧ ta ≠ tb) ∨
       (identLt a b = some false ∧ identLt b a = some true ∧ ta ≠ tb) ∨
       (identLt a b = some false ∧ identLt b a = some false ∧ ta = tb))) ∧
    (∀ a b s n, a.chembl_id = none → b.chembl_id = some s →
      pyIntOfChars (s.data.drop 6) = some n → -1 < n → identLt a b = some true) ∧
    (∀ c k d m1 m2, chemblIdKey c = some k → -1 < d →
      identLt ⟨c, none, m1⟩ ⟨c, some d, m2⟩ = some true) ∧
    (∀ c k d m, chemblIdKey c = some k → -1 < m →
      identLt ⟨c, d, none⟩ ⟨c, d, some m⟩ = some true) := by
  refine ⟨?_, ?_, ?_, ?_⟩
  · intro a b ta tb hta htb
    have hab : identLt a b = some (tripleLt ta tb) := by
      simp only [identLt, hta, htb]
    have hba : identLt b a = some (tripleLt tb ta) := by
      simp only [identLt, hta, htb]
    rcases tripleLt_trichotomy ta tb with ⟨x1, x2, x3⟩ | ⟨x1, x2, x3⟩ | ⟨x1, x2, x3⟩
    · exact Or.inl ⟨by rw [hab, x1], by rw [hba, x2], x3⟩
    · exact Or.inr (Or.inl ⟨by rw [hab, x1], by rw [hba, x2], x3⟩)
    · exact Or.inr (Or.inr ⟨by rw [hab, x1], by rw [hba, x2], x3⟩)
  · intro a b s n ha hb hn hlt
    have hta : get_tuple a =
        some (-1, a.drugbase_id.getD (-1), a.molregno.getD (-1)) := by
      simp only [get_tuple, ha, chemblIdKey]
    have htb : get_tuple b =
        some (n, b.drugbase_id.getD (-1), b.molregno.getD (-1)) := by
      simp only [get_tuple, hb, chemblIdKey, hn]
    simp only [identLt, hta, htb, tripleLt]
    simp [hlt]
  · intro c k d m1 m2 hk hd
    have hta : get_tuple ⟨c, none, m1⟩ = some (k, -1, m1.getD (-1)) := by
      simp only [get_tuple, hk]
      rfl
    have htb : get_tuple ⟨c, some d, m2⟩ = some (k, d, m2.getD (-1)) := by
      simp only [get_tuple, hk]
      rfl
    simp only [identLt, hta, htb, tripleLt]
    simp [hd]
  · intro c k d m hk hm
    have hta : get_tuple ⟨c, d, none⟩ = some (k, d.getD (-1), -1) := by
      simp only [get_tuple, hk]
      rfl
    have htb : get_tuple ⟨c, d, some m⟩ = some (k, d.getD (-1), m) := by
      simp only [get_tuple, hk]
      rfl
    simp only [identLt, hta, htb, tripleLt]
    simp [hm]

/-- C9 witness: a null accession id orders before `CHEMBL5` whatever
the other fields are. -/
theorem C9_order_witness :
    identLt ⟨none, none, none⟩ ⟨some "CHEMBL5", some 1, some 2⟩ = some true :=
  C9_order_trichotomy_on_keys.2.1 ⟨none, none, none⟩ ⟨some "CHEMBL5", some 1, some 2⟩
    "CHEMBL5" 5 rfl rfl (by decide) (by decide)

/-- C10: in `get_molregno` the priority between the two lookups is
decided by map membership, not by which argument was supplied: a
provided secondary id that is not a key of `drugbase_id2mrn` silently
defers to the accession-id lookup. -/
theorem C10_membership_priority (s : ChemblIndexes) (d : Int) (c : String) (m : Int)
    (h1 : dlookup s.drugbase_id2mrn d = none)
    (h2 : dlookup s.chembl_id2mrn c = some m) :
    get_molregno s (some d) (some c) = some m := by
  simp only [get_molregno, olookup, h1, h2]

/-- C10 witness: in `falsyStore` the unmapped secondary id `3` defers
to the mapped accession id. -/
theorem C10_priority_witness : get_molregno falsyStore (some 3) (some "") = some 5 :=
  C10_membership_priority falsyStore 3 "" 5 rfl rfl
